import Mathlib

/-! Shallow embedding of `sitemap_extract/sitemap_extract.py`.

It models: the `xml.etree.ElementTree` element shape, the two extraction
loops of `process_sitemap`, the artifact naming and contents of `save_urls`,
and the frontier loop of `process_all_sitemaps`.  Network fetching is
abstracted by an environment assigning to every (url, compressed-flag) pair
a fetch outcome: a parsed root element (HTTP 200), a non-success HTTP
status (on which `fetch_xml` / `decompress_gz` return `None`), or a raised
exception (gzip and `ET.fromstring` parse errors are caught nowhere in the
file, so they propagate through `future.result()` out of the engine loop;
the embedding threads them as `Except.error`).  Status printing and the
`processed_count` / `total_sitemaps` progress counters feed only
`print_status` and are not modelled.  The `ThreadPoolExecutor` is submitted
one task which is immediately joined (`future.result()` directly follows
`submit`), so the loop body is sequential and is modelled as a direct call.
Python string splitting on `'/'` and `'.'` and the `.endswith` test are
re-implemented over character lists so that every definition evaluates by
kernel reduction. -/

deriving instance DecidableEq for Except

namespace SitemapExtract

mutual
/-- An `ElementTree` element: tag in Clark notation (namespace wrapped in
braces), element text, child elements.  Text is modelled as a plain string
(`""` when the element has none). -/
inductive XML where
  | elem (tag : String) (text : String) (children : XMLList)
/-- Children of an element (a specialised list so that recursion over the
tree stays structural). -/
inductive XMLList where
  | nil
  | cons (x : XML) (xs : XMLList)
end

def XML.tag : XML → String
  | .elem t _ _ => t

def XML.text : XML → String
  | .elem _ s _ => s

def XML.children : XML → XMLList
  | .elem _ _ cs => cs

def XMLList.toList : XMLList → List XML
  | .nil => []
  | .cons x xs => x :: XMLList.toList xs

def ofList : List XML → XMLList
  | [] => XMLList.nil
  | x :: xs => XMLList.cons x (ofList xs)

def XML.childElems (e : XML) : List XML :=
  e.children.toList

mutual
/-- All strict descendants of an element in document (preorder) order; this
is the match list of `root.findall('.//tag')` before tag filtering. -/
def XML.descendants : XML → List XML
  | .elem _ _ cs => XMLList.descList cs
def XMLList.descList : XMLList → List XML
  | .nil => []
  | .cons x xs => x :: (XML.descendants x ++ XMLList.descList xs)
end

/-- Sitemap-protocol namespace bound to the `sm:` prefix in the source. -/
def smNamespace : String := "http://www.sitemaps.org/schemas/sitemap/0.9"

def sitemapTag : String := "\x7b" ++ smNamespace ++ "\x7dsitemap"

def urlTag : String := "\x7b" ++ smNamespace ++ "\x7durl"

def locTag : String := "\x7b" ++ smNamespace ++ "\x7dloc"

/-- `root.findall('.//t', namespace)`: descendants with the given expanded
tag, in document order. -/
def findall (t : String) (root : XML) : List XML :=
  (XML.descendants root).filter (fun e => e.tag == t)

/-- `e.find('sm:loc', namespace)`: first direct child with the given tag. -/
def findChild (t : String) (e : XML) : Option XML :=
  e.childElems.find? (fun c => c.tag == t)

/-- One extraction loop of `process_sitemap` (lines 103-112): for every
`.//t` match, if a `sm:loc` child exists, append its text. -/
def extractLocs (t : String) (root : XML) : List String :=
  (findall t root).filterMap (fun e => (findChild locTag e).map XML.text)

def splitChar (sep : Char) : List Char → List (List Char)
  | [] => [[]]
  | c :: cs =>
    match splitChar sep cs with
    | [] => [[]]
    | w :: ws => if c = sep then [] :: w :: ws else (c :: w) :: ws

/-- Python `s.split(sep)` for a one-character separator. -/
def py_split (s : String) (sep : Char) : List String :=
  (splitChar sep s.toList).map (fun cs => String.mk cs)

/-- Python `s.endswith(suffix)`. -/
def py_endswith (s suffix : String) : Bool :=
  suffix.toList.isSuffixOf s.toList

/-- `save_urls` filename choice: `url.split('/')[-1].split('.')[0]`, with
`"sitemap_urls.txt"` when that is empty, else `"<base>.txt"`. -/
def save_filename (url : String) : String :=
  let seg := (py_split url '/').getLastD ""
  let base := (py_split seg '.').headD ""
  if base = "" then "sitemap_urls.txt" else base ++ ".txt"

def header_line (url : String) : String := "Source URL: " ++ url

/-- Contents written by `save_urls(url, urls)`: the source-URL header line
followed by one URL per line, in order. -/
def save_lines (url : String) (urls : List String) : List String :=
  header_line url :: urls

/-- Observable I/O of one run: fetch dispatches (`scraper.get` via
`fetch_xml` or `decompress_gz` according to the flag) and `save_urls`
writes.  `saveSet` is the final `save_urls("sitemap_index", set)` write,
whose iteration order over the Python set is unspecified, so it carries the
set itself. -/
inductive Event where
  | fetch (url : String) (compressed : Bool)
  | save (filename : String) (lines : List String)
  | saveSet (filename : String) (header : String) (urls : Finset String)
deriving DecidableEq

/-- Outcome of one `scraper.get` + decode attempt for a (url, flag) pair. -/
inductive FetchOutcome where
  | success (root : XML)
  | httpFail
  | exn (msg : String)

abbrev Env := String → Bool → FetchOutcome

def isExn : FetchOutcome → Bool
  | .exn _ => true
  | _ => false

/-- `fetch_xml` (flag false) / `decompress_gz` (flag true): the parsed root
on HTTP 200, `none` on a non-success status, an uncaught exception
otherwise. -/
def fetchRoot (env : Env) (url : String) (is_compressed : Bool) :
    Except String (Option XML) :=
  match env url is_compressed with
  | .success root => .ok (some root)
  | .httpFail => .ok none
  | .exn e => .error e

/-- `process_sitemap` (lines 93-116).  The guard `if not root:` tests
Python truthiness: it is taken when the fetch returned `None` *and also*
when the returned root element has no children (`Element.__bool__` is
`len(self._children) != 0`), and on that path the function returns
`([], [])` without calling `save_urls`.  On the parse path it extracts the
two loc sequences, writes the per-source artifact, and returns them. -/
def process_sitemap (env : Env) (url : String) (is_compressed : Bool) :
    Except String ((List String × List String) × List Event) :=
  match fetchRoot env url is_compressed with
  | .error e => .error e
  | .ok none => .ok (([], []), [Event.fetch url is_compressed])
  | .ok (some root) =>
    if root.childElems.isEmpty then
      .ok (([], []), [Event.fetch url is_compressed])
    else
      let sitemap_urls := extractLocs sitemapTag root
      let page_urls := extractLocs urlTag root
      .ok ((sitemap_urls, page_urls),
        [Event.fetch url is_compressed,
         Event.save (save_filename url) (save_lines url page_urls)])

/-- Engine state of `process_all_sitemaps`: the two global sets, the FIFO
queue, and the trace of I/O events so far. -/
structure EngineSt where
  all_sitemap_urls : Finset String
  all_page_urls : Finset String
  queue : List String
  events : List Event
deriving DecidableEq

/-- One body iteration of the `while queue:` loop (lines 129-142):
`current_url` popped from the front, `process_sitemap` dispatched with
`current_url.endswith('.xml.gz')`, then the dedup filter against
`all_sitemap_urls` (computed before the set is updated), both set updates,
and `queue.extend(new_sitemaps)`. -/
def engineStep (env : Env) (current_url : String) (rest : List String)
    (st : EngineSt) : Except String EngineSt :=
  match process_sitemap env current_url (py_endswith current_url ".xml.gz") with
  | .error e => .error e
  | .ok ((sitemap_urls, page_urls), evs) =>
    let new_sitemaps := sitemap_urls.filter
      (fun u => decide (u ∉ st.all_sitemap_urls))
    .ok { all_sitemap_urls := st.all_sitemap_urls ∪ sitemap_urls.toFinset,
          all_page_urls := st.all_page_urls ∪ page_urls.toFinset,
          queue := rest ++ new_sitemaps,
          events := st.events ++ evs }

/-- The `while queue:` loop, fuel-indexed so that it is a total function;
theorems about complete runs either exhibit sufficient fuel or take the
emptied queue as a hypothesis. -/
def runLoop (env : Env) : Nat → EngineSt → Except String EngineSt
  | 0, st => .ok st
  | fuel + 1, st =>
    match st.queue with
    | [] => .ok st
    | current_url :: rest =>
      match engineStep env current_url rest st with
      | .error e => .error e
      | .ok st2 => runLoop env fuel st2

/-- Initial state (lines 119-121): both sets empty — the seed URLs are
*not* inserted into `all_sitemap_urls` — and `queue = start_urls[:]`. -/
def initSt (start_urls : List String) : EngineSt :=
  { all_sitemap_urls := ∅, all_page_urls := ∅,
    queue := start_urls, events := [] }

/-- `process_all_sitemaps` (lines 118-148): run the loop, then
`save_urls("sitemap_index", all_sitemap_urls)` and return the two sets.
An exception escaping `future.result()` aborts the function instead. -/
def process_all_sitemaps (env : Env) (fuel : Nat) (start_urls : List String) :
    Except String (Finset String × Finset String × List Event) :=
  match runLoop env fuel (initSt start_urls) with
  | .error e => .error e
  | .ok st =>
    .ok (st.all_sitemap_urls, st.all_page_urls,
      st.events ++ [Event.saveSet (save_filename "sitemap_index")
        (header_line "sitemap_index") st.all_sitemap_urls])

/-- The child-sitemap list `process_sitemap` yields for a URL under a given
environment (empty on failure paths). -/
def childList (env : Env) (url : String) : List String :=
  match process_sitemap env url (py_endswith url ".xml.gz") with
  | .error _ => []
  | .ok ((su, _), _) => su

/-- URLs of the fetch-dispatch events in a trace, in dispatch order. -/
def fetchedURLs (evs : List Event) : List String :=
  evs.filterMap (fun e =>
    match e with
    | Event.fetch u _ => some u
    | _ => none)

def sitemapindexTag : String := "\x7b" ++ smNamespace ++ "\x7dsitemapindex"

def urlsetTag : String := "\x7b" ++ smNamespace ++ "\x7durlset"

/-- A sitemap-index entry `<sitemap><loc>u</loc></sitemap>`. -/
def sitemapEntry (u : String) : XML :=
  .elem sitemapTag "" (ofList [.elem locTag u (ofList [])])

/-- A urlset entry `<url><loc>u</loc></url>`. -/
def urlEntry (u : String) : XML :=
  .elem urlTag "" (ofList [.elem locTag u (ofList [])])

/-- An entry of a mixed document: `inl` a sitemap reference, `inr` a page
location. -/
def entryElem : String ⊕ String → XML
  | .inl s => sitemapEntry s
  | .inr p => urlEntry p

/-- A sitemap-index document over the given child locations. -/
def indexDoc (children : List String) : XML :=
  .elem sitemapindexTag "" (ofList (children.map sitemapEntry))

/-- A urlset document over the given page locations. -/
def urlsetDoc (pages : List String) : XML :=
  .elem urlsetTag "" (ofList (pages.map urlEntry))

/-- The page-URL list `process_sitemap` yields for a URL under a given
environment (empty on failure paths). -/
def pageList (env : Env) (url : String) : List String :=
  match process_sitemap env url (py_endswith url ".xml.gz") with
  | .error _ => []
  | .ok ((_, pu), _) => pu

/-- The I/O events one loop iteration for a URL appends to the trace
(empty on the exception path, where the iteration aborts the run). -/
def stepEvents (env : Env) (url : String) : List Event :=
  match process_sitemap env url (py_endswith url ".xml.gz") with
  | .error _ => []
  | .ok (_, evs) => evs

/-- The parsing layer of `process_sitemap` (lines 98-112) as a standalone
function: child-sitemap locs and page locs, in document order. -/
def parse_sitemap (root : XML) : List String × List String :=
  (extractLocs sitemapTag root, extractLocs urlTag root)

/-- The spec's end-to-end mock environment: an index referencing two
children, which carry pages (a, b) and (b, c). -/
def envC3 : Env := fun u _ =>
  if u = "https://example.com/sitemap_index.xml" then
    .success (indexDoc ["https://example.com/sitemap1.xml",
                        "https://example.com/sitemap2.xml"])
  else if u = "https://example.com/sitemap1.xml" then
    .success (urlsetDoc ["https://example.com/a", "https://example.com/b"])
  else if u = "https://example.com/sitemap2.xml" then
    .success (urlsetDoc ["https://example.com/b", "https://example.com/c"])
  else .httpFail

/-- Environment whose seed document lists the seed URL itself and one child
duplicated within the same child list. -/
def envC1x : Env := fun u _ =>
  if u = "https://e.com/sm/index.xml" then
    .success (indexDoc ["https://e.com/sm/index.xml",
      "https://e.com/sm/child.xml", "https://e.com/sm/child.xml"])
  else .httpFail

/-- Environment with one seed whose document references a single child. -/
def envC1w : Env := fun u _ =>
  if u = "https://e.com/sm/index.xml" then
    .success (indexDoc ["https://e.com/sm/child.xml"])
  else .httpFail

/-- Environment where the first sibling's fetch raises (malformed XML). -/
def envC2x : Env := fun u _ =>
  if u = "https://e.com/a.xml" then .exn "ET.ParseError"
  else .success (urlsetDoc ["https://e.com/p"])

/-- Environment where the middle sibling fails with a non-success HTTP
status and the other two carry one page each. -/
def envC2w : Env := fun u _ =>
  if u = "https://e.com/a.xml" then .success (urlsetDoc ["https://e.com/p1"])
  else if u = "https://e.com/c.xml" then
    .success (urlsetDoc ["https://e.com/p2"])
  else .httpFail

/-- Environment where the single seed is a plain urlset: it is visited but
discovers no child sitemaps. -/
def envC4x : Env := fun u _ =>
  if u = "https://e.com/seed.xml" then .success (urlsetDoc ["https://e.com/p"])
  else .httpFail

/-- Union of the child-sitemap lists of the given URLs. -/
def childUnion (env : Env) : List String → Finset String
  | [] => ∅
  | u :: rest => (childList env u).toFinset ∪ childUnion env rest

/-- Bound used in the termination measure: one more than the length of a
URL's child-sitemap list. -/
def childBound (env : Env) (v : String) : Nat := (childList env v).length + 1

/-- Recognizer for the aggregate-set write event. -/
def isSaveSetEv : Event → Bool
  | Event.saveSet _ _ _ => true
  | _ => false

/-- The final engine state of a 2-iteration run of `envC1w` on its seed:
the seed is fetched, its one child recorded and then fetched (failing with
a non-success status), and the queue is empty. -/
def stC1w : EngineSt :=
  { all_sitemap_urls := {"https://e.com/sm/child.xml"},
    all_page_urls := ∅,
    queue := [],
    events := [Event.fetch "https://e.com/sm/index.xml" false,
      Event.save "index.txt" ["Source URL: https://e.com/sm/index.xml"],
      Event.fetch "https://e.com/sm/child.xml" false] }

/-! Helper lemmas about the engine loop. -/

theorem runLoop_queue_nil (env : Env) (fuel : Nat) (st : EngineSt)
    (h : st.queue = []) : runLoop env fuel st = .ok st := by
  cases fuel <;> simp [runLoop, h]

theorem engineStep_ok_inv (env : Env) (u : String) (rest : List String)
    (st st1 : EngineSt) (h : engineStep env u rest st = .ok st1) :
    st1.all_sitemap_urls = st.all_sitemap_urls ∪ (childList env u).toFinset ∧
    st1.all_page_urls = st.all_page_urls ∪ (pageList env u).toFinset ∧
    st1.queue = rest ++ (childList env u).filter
      (fun x => decide (x ∉ st.all_sitemap_urls)) ∧
    st1.events = st.events ++ stepEvents env u := by
  unfold engineStep at h
  unfold childList pageList stepEvents
  cases hps : process_sitemap env u (py_endswith u ".xml.gz") with
  | error e => rw [hps] at h; cases h
  | ok r =>
    obtain ⟨⟨su, pu⟩, evs⟩ := r
    rw [hps] at h
    cases h
    simp

theorem not_exn_of_engineStep_ok (env : Env) (u : String) (rest : List String)
    (st st1 : EngineSt) (h : engineStep env u rest st = .ok st1) :
    isExn (env u (py_endswith u ".xml.gz")) = false := by
  unfold engineStep process_sitemap fetchRoot at h
  cases henv : env u (py_endswith u ".xml.gz") <;> rw [henv] at h
  · rfl
  · rfl
  · cases h

theorem process_sitemap_ok_of_not_exn (env : Env) (u : String) (c : Bool)
    (h : isExn (env u c) = false) :
    ∃ r, process_sitemap env u c = .ok r := by
  unfold process_sitemap fetchRoot
  cases henv : env u c with
  | success root => cases hc : root.childElems.isEmpty <;> simp [hc]
  | httpFail => simp
  | exn e => simp [isExn, henv] at h

theorem engineStep_ok_of_not_exn (env : Env) (u : String) (rest : List String)
    (st : EngineSt) (h : isExn (env u (py_endswith u ".xml.gz")) = false) :
    ∃ st1, engineStep env u rest st = .ok st1 := by
  obtain ⟨⟨⟨su, pu⟩, evs⟩, hps⟩ :=
    process_sitemap_ok_of_not_exn env u (py_endswith u ".xml.gz") h
  exact ⟨_, by unfold engineStep; rw [hps]⟩

theorem fetchedURLs_stepEvents (env : Env) (u : String)
    (h : isExn (env u (py_endswith u ".xml.gz")) = false) :
    fetchedURLs (stepEvents env u) = [u] := by
  unfold stepEvents process_sitemap fetchRoot
  cases henv : env u (py_endswith u ".xml.gz") with
  | success root =>
    cases hc : root.childElems.isEmpty <;> simp [hc, fetchedURLs]
  | httpFail => simp [fetchedURLs]
  | exn e => simp [isExn, henv] at h

theorem runLoop_succ_cons (env : Env) (n : Nat) (st : EngineSt) (u : String)
    (rest : List String) (hq : st.queue = u :: rest) :
    runLoop env (n + 1) st =
      match engineStep env u rest st with
      | .error e => .error e
      | .ok st1 => runLoop env n st1 := by
  conv in runLoop env (n + 1) st => unfold runLoop
  rw [hq]

theorem runLoop_events_prefix (env : Env) (fuel : Nat) (st st2 : EngineSt)
    (h : runLoop env fuel st = .ok st2) :
    ∃ tl, st2.events = st.events ++ tl := by
  induction fuel generalizing st with
  | zero =>
    unfold runLoop at h
    cases h
    exact ⟨[], by simp⟩
  | succ n ih =>
    cases hq : st.queue with
    | nil =>
      rw [runLoop_queue_nil env (n + 1) st hq] at h
      cases h
      exact ⟨[], by simp⟩
    | cons u rest =>
      rw [runLoop_succ_cons env n st u rest hq] at h
      cases hstep : engineStep env u rest st with
      | error e => rw [hstep] at h; exact absurd h (by simp)
      | ok st1 =>
        rw [hstep] at h
        obtain ⟨tl1, htl1⟩ := ih st1 h
        obtain ⟨-, -, -, hev⟩ := engineStep_ok_inv env u rest st st1 hstep
        exact ⟨stepEvents env u ++ tl1, by rw [htl1, hev, List.append_assoc]⟩

theorem mem_events_runLoop (env : Env) (fuel : Nat) (st st2 : EngineSt)
    (h : runLoop env fuel st = .ok st2) (e : Event) (he : e ∈ st.events) :
    e ∈ st2.events := by
  obtain ⟨tl, htl⟩ := runLoop_events_prefix env fuel st st2 h
  rw [htl]
  exact List.mem_append_left _ he

/-! Claim theorems. -/

/-- C6: with an empty seed list, `process_all_sitemaps` completes
immediately and successfully — not an error — with empty sitemap and page
sets, performs no fetch call (the only event is the final aggregate write,
itself empty). -/
theorem c6_empty_input (env : Env) (fuel : Nat) :
    process_all_sitemaps env fuel [] =
      .ok (∅, ∅, [Event.saveSet "sitemap_index.txt"
        (header_line "sitemap_index") ∅]) := by
  have h : runLoop env fuel (initSt []) = .ok (initSt []) :=
    runLoop_queue_nil _ _ _ rfl
  have hf : save_filename "sitemap_index" = "sitemap_index.txt" := by decide
  unfold process_all_sitemaps
  rw [h]
  simp [initSt, hf]

/-- C10: when the fetch of a sitemap URL returns a non-success HTTP status,
`process_sitemap` returns the pair of two empty lists — exactly the value
it returns for a successfully fetched but empty sitemap document — and no
per-source save is performed on the failure path (the only event is the
fetch dispatch). -/
theorem c10_httpfail_indistinguishable (env env2 : Env) (url url2 : String)
    (c c2 : Bool) (root : XML)
    (hfail : env url c = .httpFail)
    (hsucc : env2 url2 c2 = .success root)
    (hempty : root.childElems = []) :
    process_sitemap env url c = .ok (([], []), [Event.fetch url c]) ∧
    process_sitemap env2 url2 c2 = .ok (([], []), [Event.fetch url2 c2]) := by
  constructor
  · simp [process_sitemap, fetchRoot, hfail]
  · simp [process_sitemap, fetchRoot, hsucc, hempty]

/-- C9 (amended): for every fetched-and-parsed sitemap node *whose root
element has at least one child element*, exactly one per-source artifact is
written, named `<last path segment before its first dot>.txt`, holding the
source URL as header line followed by the extracted page URLs, in document
order, without deduplication. -/
theorem c9_per_source_artifact_amended (env : Env) (url : String) (c : Bool)
    (root : XML) (hsucc : env url c = .success root)
    (hne : root.childElems ≠ []) :
    process_sitemap env url c =
      .ok ((extractLocs sitemapTag root, extractLocs urlTag root),
        [Event.fetch url c,
         Event.save (save_filename url)
           (header_line url :: extractLocs urlTag root)]) := by
  simp [process_sitemap, fetchRoot, hsucc, save_lines, List.isEmpty_iff, hne]

theorem c9_witness :
    process_sitemap
        (fun _ _ => .success
          (urlsetDoc ["https://x.com/p", "https://x.com/p"]))
        "https://x.com/maps/sm1.xml" false =
      .ok (([], ["https://x.com/p", "https://x.com/p"]),
        [Event.fetch "https://x.com/maps/sm1.xml" false,
         Event.save "sm1.txt"
           ["Source URL: https://x.com/maps/sm1.xml",
            "https://x.com/p", "https://x.com/p"]]) := by
  have h := c9_per_source_artifact_amended
    (fun _ _ => .success (urlsetDoc ["https://x.com/p", "https://x.com/p"]))
    "https://x.com/maps/sm1.xml" false
    (urlsetDoc ["https://x.com/p", "https://x.com/p"]) rfl
    (by intro h; exact List.noConfusion h)
  exact h.trans (by decide)

/-- C9 counterexample: a node whose fetch and parse both succeed but whose
root element is childless takes the `if not root:` branch (`ElementTree`
truthiness), so no per-source artifact is written for it — refuting
"every successfully fetched and parsed sitemap node is persisted". -/
theorem c9_counterexample :
    process_sitemap (fun _ _ => .success (XML.elem urlsetTag "" (ofList [])))
        "https://x.com/maps/sm1.xml" false =
      .ok (([], []), [Event.fetch "https://x.com/maps/sm1.xml" false]) := by
  decide

/-- C3 counterexample: on the spec's end-to-end example the returned
sitemap-URL set has size 2, not 3 — the seed index URL is never inserted
into `all_sitemap_urls` (page-URL count 3 is as claimed). -/
theorem c3_counterexample :
    (process_all_sitemaps envC3 5
        ["https://example.com/sitemap_index.xml"]).map
      (fun r => (r.1.card, r.2.1.card)) = .ok (2, 3) := by decide

/-- C3 (amended): the end-to-end example returns a sitemap-URL set of size
2 — the two discovered children only, since seed URLs never enter the
dedup set — and a page-URL set of size 3 with b deduplicated in the
aggregate. -/
theorem c3_end_to_end_amended :
    (process_all_sitemaps envC3 5
        ["https://example.com/sitemap_index.xml"]).map
      (fun r => (r.1, r.1.card, r.2.1, r.2.1.card)) =
      .ok ({"https://example.com/sitemap1.xml",
            "https://example.com/sitemap2.xml"}, 2,
           {"https://example.com/a", "https://example.com/b",
            "https://example.com/c"}, 3) := by decide

theorem fetch_flag_stepEvents (env : Env) (v u : String) (b : Bool)
    (he : Event.fetch u b ∈ stepEvents env v) :
    u = v ∧ b = py_endswith v ".xml.gz" := by
  unfold stepEvents process_sitemap fetchRoot at he
  cases henv : env v (py_endswith v ".xml.gz") with
  | success root =>
    rw [henv] at he
    cases hc : root.childElems.isEmpty <;> simp [hc] at he <;> tauto
  | httpFail =>
    rw [henv] at he
    simp at he
    tauto
  | exn e =>
    rw [henv] at he
    simp at he

theorem fetch_flag_runLoop (env : Env) (fuel : Nat) (st st2 : EngineSt)
    (h : runLoop env fuel st = .ok st2)
    (hinv : ∀ u b, Event.fetch u b ∈ st.events → b = py_endswith u ".xml.gz")
    (u : String) (b : Bool) (he : Event.fetch u b ∈ st2.events) :
    b = py_endswith u ".xml.gz" := by
  induction fuel generalizing st with
  | zero =>
    unfold runLoop at h
    cases h
    exact hinv u b he
  | succ n ih =>
    cases hq : st.queue with
    | nil =>
      rw [runLoop_queue_nil env _ st hq] at h
      cases h
      exact hinv u b he
    | cons v rest =>
      rw [runLoop_succ_cons env n st v rest hq] at h
      cases hstep : engineStep env v rest st with
      | error e => rw [hstep] at h; exact absurd h (by simp)
      | ok st1 =>
        rw [hstep] at h
        refine ih st1 h ?_
        intro u2 b2 hmem
        obtain ⟨-, -, -, hev⟩ := engineStep_ok_inv env v rest st st1 hstep
        rw [hev] at hmem
        rcases List.mem_append.1 hmem with hmem | hmem
        · exact hinv u2 b2 hmem
        · obtain ⟨rfl, hb⟩ := fetch_flag_stepEvents env v u2 b2 hmem
          exact hb

/-- C7: the routing between the decompressing fetch path and the plain
path is a pure function of the URL string alone: every fetch event of a
completed run carries the flag `url.endswith('.xml.gz')`, for any
environment, so it is independent of any fetched content. -/
theorem c7_compression_routing (env : Env) (fuel : Nat) (start : List String)
    (S P : Finset String) (evs : List Event)
    (hrun : process_all_sitemaps env fuel start = .ok (S, P, evs))
    (u : String) (b : Bool) (he : Event.fetch u b ∈ evs) :
    b = py_endswith u ".xml.gz" := by
  unfold process_all_sitemaps at hrun
  cases hloop : runLoop env fuel (initSt start) with
  | error e => rw [hloop] at hrun; exact absurd hrun (by simp)
  | ok st =>
    rw [hloop] at hrun
    simp only [Except.ok.injEq, Prod.mk.injEq] at hrun
    obtain ⟨-, -, hevs⟩ := hrun
    rw [← hevs] at he
    rcases List.mem_append.1 he with he | he
    · exact fetch_flag_runLoop env fuel (initSt start) st hloop
        (by intro u2 b2 hmem; simp [initSt] at hmem) u b he
    · simp at he

theorem c7_witness :
    Event.fetch "https://e.com/a.xml.gz" true ∈
      [Event.fetch "https://e.com/a.xml.gz" true,
       Event.saveSet "sitemap_index.txt" (header_line "sitemap_index") ∅] ∧
    true = py_endswith "https://e.com/a.xml.gz" ".xml.gz" :=
  ⟨by decide,
   c7_compression_routing (fun _ _ => .httpFail) 1 ["https://e.com/a.xml.gz"]
     ∅ ∅
     [Event.fetch "https://e.com/a.xml.gz" true,
      Event.saveSet "sitemap_index.txt" (header_line "sitemap_index") ∅]
     (by decide) "https://e.com/a.xml.gz" true (by decide)⟩

theorem fetch_mem_stepEvents (env : Env) (v : String)
    (h : isExn (env v (py_endswith v ".xml.gz")) = false) :
    Event.fetch v (py_endswith v ".xml.gz") ∈ stepEvents env v := by
  unfold stepEvents process_sitemap fetchRoot
  cases henv : env v (py_endswith v ".xml.gz") with
  | success root => cases hc : root.childElems.isEmpty <;> simp [hc]
  | httpFail => simp
  | exn e => simp [isExn, henv] at h

theorem save_mem_stepEvents (env : Env) (v : String) (root : XML)
    (hsucc : env v (py_endswith v ".xml.gz") = .success root)
    (hne : root.childElems ≠ []) :
    Event.save (save_filename v) (header_line v :: extractLocs urlTag root) ∈
      stepEvents env v := by
  unfold stepEvents process_sitemap fetchRoot
  rw [hsucc]
  simp [List.isEmpty_iff, hne, save_lines]

theorem runLoop_ok_of_noExn (env : Env) (fuel : Nat) (st : EngineSt)
    (hnoexn : ∀ u b, isExn (env u b) = false) :
    ∃ st2, runLoop env fuel st = .ok st2 := by
  induction fuel generalizing st with
  | zero => exact ⟨st, rfl⟩
  | succ n ih =>
    cases hq : st.queue with
    | nil => exact ⟨st, runLoop_queue_nil env _ st hq⟩
    | cons v rest =>
      obtain ⟨st1, hstep⟩ := engineStep_ok_of_not_exn env v rest st
        (hnoexn v (py_endswith v ".xml.gz"))
      obtain ⟨st2, h2⟩ := ih st1
      exact ⟨st2, by rw [runLoop_succ_cons env n st v rest hq, hstep]; exact h2⟩

theorem runLoop_processes_take (env : Env) (fuel : Nat) (st st2 : EngineSt)
    (h : runLoop env fuel st = .ok st2) (u : String)
    (hu : u ∈ st.queue.take fuel) :
    Event.fetch u (py_endswith u ".xml.gz") ∈ st2.events ∧
    ∀ root, env u (py_endswith u ".xml.gz") = .success root →
      root.childElems ≠ [] →
      Event.save (save_filename u) (header_line u :: extractLocs urlTag root) ∈
        st2.events := by
  induction fuel generalizing st with
  | zero => simp at hu
  | succ n ih =>
    cases hq : st.queue with
    | nil => rw [hq] at hu; simp at hu
    | cons v rest =>
      rw [runLoop_succ_cons env n st v rest hq] at h
      cases hstep : engineStep env v rest st with
      | error e => rw [hstep] at h; exact absurd h (by simp)
      | ok st1 =>
        rw [hstep] at h
        have hnx := not_exn_of_engineStep_ok env v rest st st1 hstep
        obtain ⟨-, -, hq1, hev1⟩ := engineStep_ok_inv env v rest st st1 hstep
        rw [hq] at hu
        rcases List.mem_cons.1 hu with rfl | hu2
        · constructor
          · refine mem_events_runLoop env n st1 st2 h _ ?_
            rw [hev1]
            exact List.mem_append_right _ (fetch_mem_stepEvents env u hnx)
          · intro root hsucc hne
            refine mem_events_runLoop env n st1 st2 h _ ?_
            rw [hev1]
            exact List.mem_append_right _
              (save_mem_stepEvents env u root hsucc hne)
        · refine ih st1 h ?_
          rw [hq1, List.take_append_eq_append_take]
          exact List.mem_append_left _ hu2

/-- C2 (amended): only fetch failures signalled by a non-success HTTP
status are absorbed at the task level.  When no fetch raises an exception,
the run returns a result, every queued sibling is fetch-dispatched, and
every sibling whose document is fetched with children has its page URLs
persisted — so an HTTP-status failure of one node does not disturb the
others.  (Gzip-decompression and XML-parse failures, by contrast, raise
exceptions that are caught nowhere and propagate through
`future.result()`, aborting the engine loop: see the counterexample.) -/
theorem c2_partial_failure_amended (env : Env) (fuel : Nat)
    (start : List String)
    (hnoexn : ∀ u b, isExn (env u b) = false)
    (hfuel : start.length ≤ fuel) :
    ∃ S P evs, process_all_sitemaps env fuel start = .ok (S, P, evs) ∧
      ∀ u ∈ start,
        Event.fetch u (py_endswith u ".xml.gz") ∈ evs ∧
        ∀ root, env u (py_endswith u ".xml.gz") = .success root →
          root.childElems ≠ [] →
          Event.save (save_filename u)
            (header_line u :: extractLocs urlTag root) ∈ evs := by
  obtain ⟨st2, hrun⟩ := runLoop_ok_of_noExn env fuel (initSt start) hnoexn
  refine ⟨st2.all_sitemap_urls, st2.all_page_urls, _,
    by unfold process_all_sitemaps; rw [hrun], ?_⟩
  intro u hu
  have htake : u ∈ (initSt start).queue.take fuel := by
    simp only [initSt]
    rw [List.take_of_length_le hfuel]
    exact hu
  obtain ⟨h1, h2⟩ := runLoop_processes_take env fuel (initSt start) st2 hrun u htake
  exact ⟨List.mem_append_left _ h1,
    fun root hsucc hne => List.mem_append_left _ (h2 root hsucc hne)⟩

/-- C2 counterexample: an XML parse failure on the first of three sibling
seeds is not absorbed — it propagates through `future.result()` and aborts
the engine loop, so the remaining two siblings are never processed and no
result is returned. -/
theorem c2_counterexample :
    process_all_sitemaps envC2x 3
      ["https://e.com/a.xml", "https://e.com/b.xml", "https://e.com/c.xml"] =
      .error "ET.ParseError" := by decide

theorem noexn_envC2w : ∀ u b, isExn (envC2w u b) = false := by
  intro u b
  unfold envC2w
  split
  · rfl
  split
  · rfl
  rfl

theorem c2_witness :
    ∃ S P evs, process_all_sitemaps envC2w 3
        ["https://e.com/a.xml", "https://e.com/b.xml", "https://e.com/c.xml"] =
        .ok (S, P, evs) ∧
      ∀ u ∈ ["https://e.com/a.xml", "https://e.com/b.xml",
          "https://e.com/c.xml"],
        Event.fetch u (py_endswith u ".xml.gz") ∈ evs ∧
        ∀ root, envC2w u (py_endswith u ".xml.gz") = .success root →
          root.childElems ≠ [] →
          Event.save (save_filename u)
            (header_line u :: extractLocs urlTag root) ∈ evs :=
  c2_partial_failure_amended envC2w 3
    ["https://e.com/a.xml", "https://e.com/b.xml", "https://e.com/c.xml"]
    noexn_envC2w (by decide)

theorem childUnion_mem (env : Env) (l : List String) (x : String) :
    x ∈ childUnion env l ↔ ∃ u ∈ l, x ∈ childList env u := by
  induction l with
  | nil => simp [childUnion]
  | cons u rest ih => simp [childUnion, ih]

theorem stepEvents_no_saveSet (env : Env) (v : String) :
    (stepEvents env v).filter isSaveSetEv = [] := by
  unfold stepEvents process_sitemap fetchRoot
  cases henv : env v (py_endswith v ".xml.gz") with
  | success root =>
    cases hc : root.childElems.isEmpty <;> simp [hc, isSaveSetEv]
  | httpFail => simp [isSaveSetEv]
  | exn e => simp

theorem runLoop_no_saveSet (env : Env) (fuel : Nat) (st st2 : EngineSt)
    (h : runLoop env fuel st = .ok st2)
    (h0 : st.events.filter isSaveSetEv = []) :
    st2.events.filter isSaveSetEv = [] := by
  induction fuel generalizing st with
  | zero => unfold runLoop at h; cases h; exact h0
  | succ n ih =>
    cases hq : st.queue with
    | nil => rw [runLoop_queue_nil env _ st hq] at h; cases h; exact h0
    | cons v rest =>
      rw [runLoop_succ_cons env n st v rest hq] at h
      cases hstep : engineStep env v rest st with
      | error e => rw [hstep] at h; exact absurd h (by simp)
      | ok st1 =>
        rw [hstep] at h
        obtain ⟨-, -, -, hev⟩ := engineStep_ok_inv env v rest st st1 hstep
        refine ih st1 h ?_
        rw [hev, List.filter_append, h0, stepEvents_no_saveSet]
        rfl

theorem runLoop_sitemap_set (env : Env) (fuel : Nat) (st st2 : EngineSt)
    (h : runLoop env fuel st = .ok st2) :
    ∃ tl, st2.events = st.events ++ tl ∧
      st2.all_sitemap_urls =
        st.all_sitemap_urls ∪ childUnion env (fetchedURLs tl) := by
  induction fuel generalizing st with
  | zero =>
    unfold runLoop at h
    cases h
    exact ⟨[], by simp [fetchedURLs, childUnion]⟩
  | succ n ih =>
    cases hq : st.queue with
    | nil =>
      rw [runLoop_queue_nil env _ st hq] at h
      cases h
      exact ⟨[], by simp [fetchedURLs, childUnion]⟩
    | cons v rest =>
      rw [runLoop_succ_cons env n st v rest hq] at h
      cases hstep : engineStep env v rest st with
      | error e => rw [hstep] at h; exact absurd h (by simp)
      | ok st1 =>
        rw [hstep] at h
        have hnx := not_exn_of_engineStep_ok env v rest st st1 hstep
        obtain ⟨hset1, -, -, hev1⟩ := engineStep_ok_inv env v rest st st1 hstep
        obtain ⟨tl1, hev2, hset2⟩ := ih st1 h
        refine ⟨stepEvents env v ++ tl1, ?_, ?_⟩
        · rw [hev2, hev1, List.append_assoc]
        · rw [hset2, hset1]
          have hf : fetchedURLs (stepEvents env v ++ tl1) =
              v :: fetchedURLs tl1 := by
            unfold fetchedURLs
            rw [List.filterMap_append]
            have hfv := fetchedURLs_stepEvents env v hnx
            unfold fetchedURLs at hfv
            rw [hfv]
            rfl
          rw [hf]
          show _ = _ ∪ ((childList env v).toFinset ∪ childUnion env (fetchedURLs tl1))
          rw [Finset.union_assoc]

/-- C4 (amended): on every completed run the aggregate artifact is
persisted exactly once, under the name derived from "sitemap_index", and
it carries exactly the set of sitemap URLs discovered as children of
fetched nodes — each exactly once, however many parents referenced it.
Seed URLs, although visited, are never inserted into `all_sitemap_urls`,
so they are absent from the aggregate unless rediscovered as some node's
child. -/
theorem c4_aggregate_amended (env : Env) (fuel : Nat) (start : List String)
    (S P : Finset String) (evs : List Event)
    (hrun : process_all_sitemaps env fuel start = .ok (S, P, evs)) :
    evs.filter isSaveSetEv =
      [Event.saveSet "sitemap_index.txt" (header_line "sitemap_index") S] ∧
    S = childUnion env (fetchedURLs evs) ∧
    (∀ x, x ∈ S ↔ ∃ u ∈ fetchedURLs evs, x ∈ childList env u) := by
  unfold process_all_sitemaps at hrun
  cases hloop : runLoop env fuel (initSt start) with
  | error e => rw [hloop] at hrun; exact absurd hrun (by simp)
  | ok st =>
    rw [hloop] at hrun
    have hfn : save_filename "sitemap_index" = "sitemap_index.txt" := by decide
    rw [hfn] at hrun
    simp only [Except.ok.injEq, Prod.mk.injEq] at hrun
    obtain ⟨hS, -, hevs⟩ := hrun
    obtain ⟨tl, htl, hset⟩ := runLoop_sitemap_set env fuel (initSt start) st hloop
    have hfetch_evs : fetchedURLs evs = fetchedURLs st.events := by
      rw [← hevs]
      unfold fetchedURLs
      rw [List.filterMap_append]
      simp
    have hnos : st.events.filter isSaveSetEv = [] :=
      runLoop_no_saveSet env fuel (initSt start) st hloop rfl
    have hSeq : S = childUnion env (fetchedURLs evs) := by
      rw [hfetch_evs, ← hS, hset, htl]
      simp [initSt]
    refine ⟨?_, hSeq, ?_⟩
    · rw [← hevs, List.filter_append, hnos, hS]
      simp [isSaveSetEv]
    · intro x
      rw [hSeq]
      exact childUnion_mem env (fetchedURLs evs) x

/-- C4 counterexample: the single seed is visited (its fetch event is in
the trace) and succeeds, yet the persisted aggregate set is empty — the
seed URL is missing from the artifact, refuting "contains every distinct
sitemap URL visited ... whether it entered as a seed or as a discovered
child". -/
theorem c4_counterexample :
    process_all_sitemaps envC4x 3 ["https://e.com/seed.xml"] =
      .ok (∅, {"https://e.com/p"},
        [Event.fetch "https://e.com/seed.xml" false,
         Event.save "seed.txt"
           ["Source URL: https://e.com/seed.xml", "https://e.com/p"],
         Event.saveSet "sitemap_index.txt" (header_line "sitemap_index")
           ∅]) := by decide

theorem c4_witness :
    ([Event.fetch "https://e.com/seed.xml" false,
      Event.save "seed.txt"
        ["Source URL: https://e.com/seed.xml", "https://e.com/p"],
      Event.saveSet "sitemap_index.txt" (header_line "sitemap_index")
        (∅ : Finset String)].filter isSaveSetEv =
      [Event.saveSet "sitemap_index.txt" (header_line "sitemap_index")
        (∅ : Finset String)]) ∧
    (∅ : Finset String) = childUnion envC4x (fetchedURLs
      [Event.fetch "https://e.com/seed.xml" false,
       Event.save "seed.txt"
         ["Source URL: https://e.com/seed.xml", "https://e.com/p"],
       Event.saveSet "sitemap_index.txt" (header_line "sitemap_index")
         (∅ : Finset String)]) ∧
    (∀ x, x ∈ (∅ : Finset String) ↔
      ∃ u ∈ fetchedURLs
        [Event.fetch "https://e.com/seed.xml" false,
         Event.save "seed.txt"
           ["Source URL: https://e.com/seed.xml", "https://e.com/p"],
         Event.saveSet "sitemap_index.txt" (header_line "sitemap_index")
           (∅ : Finset String)], x ∈ childList envC4x u) :=
  c4_aggregate_amended envC4x 3 ["https://e.com/seed.xml"] ∅
    {"https://e.com/p"}
    [Event.fetch "https://e.com/seed.xml" false,
     Event.save "seed.txt"
       ["Source URL: https://e.com/seed.xml", "https://e.com/p"],
     Event.saveSet "sitemap_index.txt" (header_line "sitemap_index") ∅]
    (by decide)

theorem runLoop_nodup_inv (env : Env) (start : List String) (fuel : Nat)
    (st st2 : EngineSt)
    (hchild_nodup : ∀ v, (childList env v).Nodup)
    (hchild_seed : ∀ v c, c ∈ childList env v → c ∉ start)
    (h : runLoop env fuel st = .ok st2)
    (ha : (fetchedURLs st.events ++ st.queue).Nodup)
    (hb : ∀ x ∈ fetchedURLs st.events ++ st.queue,
      x ∈ start.toFinset ∪ st.all_sitemap_urls)
    (hc : ∀ x ∈ start.toFinset ∪ st.all_sitemap_urls,
      x ∈ fetchedURLs st.events ++ st.queue) :
    (fetchedURLs st2.events ++ st2.queue).Nodup ∧
    (∀ x ∈ fetchedURLs st2.events ++ st2.queue,
      x ∈ start.toFinset ∪ st2.all_sitemap_urls) ∧
    (∀ x ∈ start.toFinset ∪ st2.all_sitemap_urls,
      x ∈ fetchedURLs st2.events ++ st2.queue) := by
  induction fuel generalizing st with
  | zero =>
    unfold runLoop at h
    cases h
    exact ⟨ha, hb, hc⟩
  | succ n ih =>
    cases hq : st.queue with
    | nil =>
      rw [runLoop_queue_nil env _ st hq] at h
      cases h
      exact ⟨ha, hb, hc⟩
    | cons v rest =>
      rw [runLoop_succ_cons env n st v rest hq] at h
      cases hstep : engineStep env v rest st with
      | error e => rw [hstep] at h; exact absurd h (by simp)
      | ok st1 =>
        rw [hstep] at h
        have hnx := not_exn_of_engineStep_ok env v rest st st1 hstep
        obtain ⟨hset1, -, hq1, hev1⟩ := engineStep_ok_inv env v rest st st1 hstep
        have hfetch1 : fetchedURLs st1.events = fetchedURLs st.events ++ [v] := by
          rw [hev1]
          unfold fetchedURLs
          rw [List.filterMap_append]
          have hfv := fetchedURLs_stepEvents env v hnx
          unfold fetchedURLs at hfv
          rw [hfv]
        have hL1 : fetchedURLs st1.events ++ st1.queue =
            (fetchedURLs st.events ++ v :: rest) ++
              (childList env v).filter
                (fun x => decide (x ∉ st.all_sitemap_urls)) := by
          rw [hfetch1, hq1]
          simp
        have hmem_new : ∀ x, x ∈ (childList env v).filter
            (fun x => decide (x ∉ st.all_sitemap_urls)) ↔
            x ∈ childList env v ∧ x ∉ st.all_sitemap_urls := by
          intro x
          rw [List.mem_filter]
          simp
        have hold : ∀ x ∈ fetchedURLs st.events ++ v :: rest,
            x ∈ start.toFinset ∪ st.all_sitemap_urls := by
          intro x hx
          exact hb x (by rw [hq]; exact hx)
        refine ih st1 h ?_ ?_ ?_
        · rw [hL1, List.nodup_append]
          refine ⟨by rw [hq] at ha; exact ha,
            List.Nodup.filter _ (hchild_nodup v), ?_⟩
          intro x hx hxn
          obtain ⟨hxc, hxs⟩ := (hmem_new x).1 hxn
          rcases Finset.mem_union.1 (hold x hx) with hx2 | hx2
          · exact hchild_seed v x hxc (List.mem_toFinset.1 hx2)
          · exact hxs hx2
        · intro x hx
          rw [hL1] at hx
          rw [hset1]
          rcases List.mem_append.1 hx with hx | hx
          · rcases Finset.mem_union.1 (hold x hx) with hx2 | hx2
            · exact Finset.mem_union_left _ hx2
            · exact Finset.mem_union_right _ (Finset.mem_union_left _ hx2)
          · exact Finset.mem_union_right _ (Finset.mem_union_right _
              (List.mem_toFinset.2 ((hmem_new x).1 hx).1))
        · intro x hx
          rw [hL1]
          rw [hset1] at hx
          have hcold : x ∈ start.toFinset ∪ st.all_sitemap_urls →
              x ∈ (fetchedURLs st.events ++ v :: rest) ++
                (childList env v).filter
                  (fun x => decide (x ∉ st.all_sitemap_urls)) := by
            intro hx2
            refine List.mem_append_left _ ?_
            have := hc x hx2
            rw [hq] at this
            exact this
          rcases Finset.mem_union.1 hx with hx | hx
          · exact hcold (Finset.mem_union_left _ hx)
          · rcases Finset.mem_union.1 hx with hx | hx
            · exact hcold (Finset.mem_union_right _ hx)
            · by_cases hxs : x ∈ st.all_sitemap_urls
              · exact hcold (Finset.mem_union_right _ hxs)
              · exact List.mem_append_right _
                  ((hmem_new x).2 ⟨List.mem_toFinset.1 hx, hxs⟩)

/-- C1 (amended): provided the seed list is duplicate-free, no document's
child list contains duplicates, and no discovered child equals a seed URL,
every sitemap URL is fetch-dispatched at most once, and on a completed run
(empty final queue) the number of dispatches equals the number of distinct
sitemap URLs encountered (seeds plus all discovered children).  The
provisos are forced by the code: seed URLs are never inserted into the
dedup set, so a seed rediscovered as a child is dispatched again, and the
not-yet-seen filter is computed for a whole child list at once, so
duplicates within one list are all enqueued (see the counterexample). -/
theorem c1_at_most_once_amended (env : Env) (fuel : Nat) (start : List String)
    (st2 : EngineSt)
    (hstart : start.Nodup)
    (hchild_nodup : ∀ v, (childList env v).Nodup)
    (hchild_seed : ∀ v c, c ∈ childList env v → c ∉ start)
    (h : runLoop env fuel (initSt start) = .ok st2) :
    (fetchedURLs st2.events).Nodup ∧
    (st2.queue = [] →
      (fetchedURLs st2.events).length =
        (start.toFinset ∪ st2.all_sitemap_urls).card) := by
  have hinit_f : fetchedURLs (initSt start).events = [] := rfl
  obtain ⟨ha2, hb2, hc2⟩ := runLoop_nodup_inv env start fuel (initSt start) st2
    hchild_nodup hchild_seed h
    (by rw [hinit_f]; simpa [initSt] using hstart)
    (by intro x hx
        rw [hinit_f] at hx
        simp only [List.nil_append, initSt] at hx
        simp [initSt, List.mem_toFinset.2 hx])
    (by intro x hx
        rw [hinit_f]
        simp only [List.nil_append]
        simp [initSt] at hx
        exact hx)
  refine ⟨(List.nodup_append.1 ha2).1, ?_⟩
  intro hq2
  rw [hq2, List.append_nil] at ha2 hb2 hc2
  have hext : (fetchedURLs st2.events).toFinset =
      start.toFinset ∪ st2.all_sitemap_urls := by
    ext x
    rw [List.mem_toFinset]
    exact ⟨fun hx => hb2 x hx, fun hx => hc2 x hx⟩
  rw [← hext]
  exact (List.toFinset_card_of_nodup ha2).symm

/-- C1 counterexample: with a seed whose document lists the seed itself
and one child twice, the run performs 4 fetch dispatches although only 2
distinct sitemap URLs are ever encountered (seed plus one child) — the
seed is re-dispatched (never in the dedup set) and the duplicated child is
enqueued twice. -/
theorem c1_counterexample :
    (process_all_sitemaps envC1x 5 ["https://e.com/sm/index.xml"]).map
      (fun r => ((fetchedURLs r.2.2).length,
        ((["https://e.com/sm/index.xml"] : List String).toFinset ∪
          r.1).card)) = .ok (4, 2) := by decide

theorem childList_envC1w (v : String)
    (hv : v ≠ "https://e.com/sm/index.xml") : childList envC1w v = [] := by
  simp [childList, process_sitemap, fetchRoot, envC1w, hv]

theorem c1_witness :
    ((["https://e.com/sm/index.xml"] : List String).Nodup ∧
     (∀ v, (childList envC1w v).Nodup) ∧
     (∀ v c, c ∈ childList envC1w v →
        c ∉ ["https://e.com/sm/index.xml"]) ∧
     runLoop envC1w 3 (initSt ["https://e.com/sm/index.xml"]) = .ok stC1w) ∧
    ((fetchedURLs stC1w.events).Nodup ∧
     (stC1w.queue = [] →
       (fetchedURLs stC1w.events).length =
         ((["https://e.com/sm/index.xml"] : List String).toFinset ∪
           stC1w.all_sitemap_urls).card)) := by
  have hnodup : ∀ v, (childList envC1w v).Nodup := by
    intro v
    by_cases hv : v = "https://e.com/sm/index.xml"
    · subst hv; decide
    · rw [childList_envC1w v hv]; exact List.nodup_nil
  have hseed : ∀ v c, c ∈ childList envC1w v →
      c ∉ ["https://e.com/sm/index.xml"] := by
    intro v c hcv
    by_cases hv : v = "https://e.com/sm/index.xml"
    · subst hv
      have hcl : childList envC1w "https://e.com/sm/index.xml" =
          ["https://e.com/sm/child.xml"] := by decide
      rw [hcl] at hcv
      simp at hcv
      subst hcv
      decide
    · rw [childList_envC1w v hv] at hcv
      cases hcv
  exact ⟨⟨by decide, hnodup, hseed, by decide⟩,
    c1_at_most_once_amended envC1w 3 ["https://e.com/sm/index.xml"] stC1w
      (by decide) hnodup hseed (by decide)⟩

theorem runLoop_terminates_aux (env : Env) (U : Finset String)
    (hU : ∀ v, (childList env v).toFinset ⊆ U)
    (hnoexn : ∀ u b, isExn (env u b) = false)
    (W : Finset String) (hUW : U ⊆ W)
    (fuel : Nat) (st : EngineSt)
    (hq : ∀ v ∈ st.queue, v ∈ W)
    (hfuel : st.queue.length +
      W.sup (childBound env) * (U \ st.all_sitemap_urls).card ≤ fuel) :
    ∃ st2, runLoop env fuel st = .ok st2 ∧ st2.queue = [] := by
  induction fuel generalizing st with
  | zero =>
    have hlen : st.queue.length = 0 := by omega
    exact ⟨st, rfl, List.length_eq_zero.1 hlen⟩
  | succ n ih =>
    cases hqs : st.queue with
    | nil => exact ⟨st, runLoop_queue_nil env _ st hqs, hqs⟩
    | cons v rest =>
      obtain ⟨st1, hstep⟩ := engineStep_ok_of_not_exn env v rest st
        (hnoexn v (py_endswith v ".xml.gz"))
      obtain ⟨hset1, -, hq1, -⟩ := engineStep_ok_inv env v rest st st1 hstep
      set B := W.sup (childBound env) with hB
      set new := (childList env v).filter
        (fun x => decide (x ∉ st.all_sitemap_urls)) with hnew
      have hvW : v ∈ W := hq v (by rw [hqs]; exact List.mem_cons_self v rest)
      have hLB : childBound env v ≤ B := by
        rw [hB]
        exact Finset.le_sup hvW
      have hLB2 : (childList env v).length + 1 ≤ B := hLB
      have hnewlen : new.length ≤ (childList env v).length := by
        rw [hnew]; exact List.length_filter_le _ _
      have hq1w : ∀ x ∈ st1.queue, x ∈ W := by
        intro x hx
        rw [hq1] at hx
        rcases List.mem_append.1 hx with hx | hx
        · exact hq x (by rw [hqs]; exact List.mem_cons_of_mem v hx)
        · exact hUW (hU v (List.mem_toFinset.2 (List.mem_of_mem_filter hx)))
      have hq1len : st1.queue.length = rest.length + new.length := by
        rw [hq1, List.length_append]
      have hresult : ∀ st2, runLoop env n st1 = .ok st2 ∧ st2.queue = [] →
          ∃ st2, runLoop env (n + 1) st = .ok st2 ∧ st2.queue = [] := by
        rintro st2 ⟨hr, hqe⟩
        refine ⟨st2, ?_, hqe⟩
        rw [runLoop_succ_cons env n st v rest hqs, hstep]
        exact hr
      have hflen : rest.length + 1 + B * (U \ st.all_sitemap_urls).card ≤
          n + 1 := by
        have := hfuel
        rw [hqs] at this
        simpa [Nat.add_comm] using this
      rcases hnewe : new with _ | ⟨x, new2⟩
      · obtain ⟨st2, hr, hqe⟩ := ih st1 hq1w (by
          have hmul : B * (U \ st1.all_sitemap_urls).card ≤
              B * (U \ st.all_sitemap_urls).card := by
            apply Nat.mul_le_mul_left
            apply Finset.card_le_card
            apply Finset.sdiff_subset_sdiff (Finset.Subset.refl U)
            rw [hset1]
            exact Finset.subset_union_left
          have hql : st1.queue.length = rest.length := by
            rw [hq1len, hnewe]; simp
          omega)
        exact hresult st2 ⟨hr, hqe⟩
      · have hxnew : x ∈ new := by rw [hnewe]; exact List.mem_cons_self x new2
        have hxc : x ∈ childList env v := List.mem_of_mem_filter hxnew
        have hxs : x ∉ st.all_sitemap_urls := by
          have := List.of_mem_filter hxnew
          simpa using this
        have hxin : x ∈ U \ st.all_sitemap_urls :=
          Finset.mem_sdiff.2 ⟨hU v (List.mem_toFinset.2 hxc), hxs⟩
        have hsub : U \ st1.all_sitemap_urls ⊆
            (U \ st.all_sitemap_urls).erase x := by
          intro y hy
          rw [Finset.mem_sdiff] at hy
          rw [Finset.mem_erase, Finset.mem_sdiff]
          have hyne : y ≠ x := by
            intro he
            subst he
            refine hy.2 ?_
            rw [hset1]
            exact Finset.mem_union_right _ (List.mem_toFinset.2 hxc)
          refine ⟨hyne, hy.1, fun hys => hy.2 ?_⟩
          rw [hset1]
          exact Finset.mem_union_left _ hys
        have hcard : (U \ st1.all_sitemap_urls).card + 1 ≤
            (U \ st.all_sitemap_urls).card := by
          have h1 := Finset.card_le_card hsub
          rw [Finset.card_erase_of_mem hxin] at h1
          have h2 : 1 ≤ (U \ st.all_sitemap_urls).card :=
            Finset.card_pos.2 ⟨x, hxin⟩
          omega
        obtain ⟨st2, hr, hqe⟩ := ih st1 hq1w (by
          have hmul : B * ((U \ st1.all_sitemap_urls).card + 1) ≤
              B * (U \ st.all_sitemap_urls).card :=
            Nat.mul_le_mul_left B hcard
          rw [Nat.mul_add, Nat.mul_one] at hmul
          rw [hq1len]
          omega)
        exact hresult st2 ⟨hr, hqe⟩

/-- C5: when every URL's fetch+parse outcome is a fixed finite child list
drawn from a finite universe `U` (so no fetch raises an exception), the
`while queue:` loop terminates — exhibited fuel empties the queue — after
which the aggregate sitemap set is persisted via `save_urls` and the two
sets are returned. -/
theorem c5_termination (env : Env) (start : List String) (U : Finset String)
    (hU : ∀ v, (childList env v).toFinset ⊆ U)
    (hnoexn : ∀ u b, isExn (env u b) = false) :
    ∃ fuel st2, runLoop env fuel (initSt start) = .ok st2 ∧
      st2.queue = [] ∧
      process_all_sitemaps env fuel start =
        .ok (st2.all_sitemap_urls, st2.all_page_urls,
          st2.events ++ [Event.saveSet "sitemap_index.txt"
            (header_line "sitemap_index") st2.all_sitemap_urls]) := by
  obtain ⟨st2, hrun, hq2⟩ := runLoop_terminates_aux env U hU hnoexn
    (start.toFinset ∪ U) Finset.subset_union_right
    (start.length + (start.toFinset ∪ U).sup (childBound env) * U.card)
    (initSt start)
    (fun v hv => Finset.mem_union_left _ (List.mem_toFinset.2 hv))
    (by simp [initSt])
  refine ⟨_, st2, hrun, hq2, ?_⟩
  unfold process_all_sitemaps
  rw [hrun]
  have hfn : save_filename "sitemap_index" = "sitemap_index.txt" := by decide
  rw [hfn]

theorem noexn_envC1w : ∀ u b, isExn (envC1w u b) = false := by
  intro u b
  unfold envC1w
  split
  · rfl
  · rfl

theorem c5_witness :
    (∀ v, (childList envC1w v).toFinset ⊆
        ({"https://e.com/sm/child.xml"} : Finset String)) ∧
    (∀ u b, isExn (envC1w u b) = false) ∧
    (∃ fuel st2, runLoop envC1w fuel
        (initSt ["https://e.com/sm/index.xml"]) = .ok st2 ∧
      st2.queue = [] ∧
      process_all_sitemaps envC1w fuel ["https://e.com/sm/index.xml"] =
        .ok (st2.all_sitemap_urls, st2.all_page_urls,
          st2.events ++ [Event.saveSet "sitemap_index.txt"
            (header_line "sitemap_index") st2.all_sitemap_urls])) := by
  have hU : ∀ v, (childList envC1w v).toFinset ⊆
      ({"https://e.com/sm/child.xml"} : Finset String) := by
    intro v
    by_cases hv : v = "https://e.com/sm/index.xml"
    · subst hv; decide
    · rw [childList_envC1w v hv]; simp
  exact ⟨hU, noexn_envC1w,
    c5_termination envC1w ["https://e.com/sm/index.xml"]
      {"https://e.com/sm/child.xml"} hU noexn_envC1w⟩

theorem urlTag_beq_sitemapTag : (urlTag == sitemapTag) = false := by decide

theorem locTag_beq_sitemapTag : (locTag == sitemapTag) = false := by decide

theorem sitemapTag_beq_urlTag : (sitemapTag == urlTag) = false := by decide

theorem locTag_beq_urlTag : (locTag == urlTag) = false := by decide

theorem extract_sitemap_cons (rt rx : String) (e : String ⊕ String)
    (xs : List XML) :
    extractLocs sitemapTag (XML.elem rt rx (ofList (entryElem e :: xs))) =
      (match e with | .inl s => [s] | .inr _ => []) ++
      extractLocs sitemapTag (XML.elem rt rx (ofList xs)) := by
  cases e <;>
    simp [extractLocs, findall, XML.descendants, XMLList.descList, ofList,
      entryElem, sitemapEntry, urlEntry, findChild, XML.childElems,
      XML.children, XMLList.toList, XML.tag, XML.text,
      urlTag_beq_sitemapTag, locTag_beq_sitemapTag]

theorem extract_url_cons (rt rx : String) (e : String ⊕ String)
    (xs : List XML) :
    extractLocs urlTag (XML.elem rt rx (ofList (entryElem e :: xs))) =
      (match e with | .inl _ => [] | .inr p => [p]) ++
      extractLocs urlTag (XML.elem rt rx (ofList xs)) := by
  cases e <;>
    simp [extractLocs, findall, XML.descendants, XMLList.descList, ofList,
      entryElem, sitemapEntry, urlEntry, findChild, XML.childElems,
      XML.children, XMLList.toList, XML.tag, XML.text,
      sitemapTag_beq_urlTag, locTag_beq_urlTag]

/-- C8: the parser layer is deterministic and extracts child-sitemap and
page locs as two sequences in document order, keeping duplicates within a
single document: on a document whose entries are an arbitrary interleaving
(repetitions allowed) of sitemap references (`inl`) and page locations
(`inr`), it returns exactly the left and right projections, in order; and
parsing the same document twice yields identical results (the parser is a
pure function, so this holds definitionally for every document). -/
theorem c8_parse_order_no_dedup (rtag rtext : String)
    (es : List (String ⊕ String)) :
    parse_sitemap (XML.elem rtag rtext (ofList (es.map entryElem))) =
      (es.filterMap (fun e => match e with | .inl s => some s | .inr _ => none),
       es.filterMap (fun e => match e with | .inl _ => none | .inr p => some p))
      ∧ ∀ doc : XML, parse_sitemap doc = parse_sitemap doc := by
  refine ⟨?_, fun _ => rfl⟩
  induction es with
  | nil => rfl
  | cons e es ih =>
    have h1 := extract_sitemap_cons rtag rtext e (es.map entryElem)
    have h2 := extract_url_cons rtag rtext e (es.map entryElem)
    unfold parse_sitemap at ih ⊢
    rw [List.map_cons, h1, h2]
    rw [Prod.mk.injEq] at ih
    cases e <;> simp [ih.1, ih.2]

theorem c10_witness :
    process_sitemap (fun _ _ => .httpFail) "https://x.com/a.xml" false =
        .ok (([], []), [Event.fetch "https://x.com/a.xml" false]) ∧
    process_sitemap (fun _ _ => .success (urlsetDoc [])) "https://x.com/b.xml"
        false =
        .ok (([], []), [Event.fetch "https://x.com/b.xml" false]) :=
  c10_httpfail_indistinguishable _ _ _ _ _ _ (urlsetDoc []) rfl rfl rfl

end SitemapExtract
